import Mathlib

/-!
Shallow embedding of `inflammation/models.py`.

Tables are embedded as `List (List ℚ)` (rows of rationals: the Python code
works on numpy float arrays; rationals give exact arithmetic for the same
formulas). NumPy reductions that can raise (`ValueError` on an inhomogeneous
list or on a zero-size `max`/`min` reduction) or yield a NaN scalar
(`np.mean` of a zero-size array warns and returns `nan`) are modelled with an
explicit result type `NpResult`.
-/

namespace Inflammation

/-- A 2D inflammation table: rows are patients, columns are days. -/
abbrev Table := List (List ℚ)

/-- Outcome of a numpy column-wise reduction on a table built with
`np.array(data)`:
* `raised`    — numpy raised a `ValueError` (inhomogeneous nested list, or a
                zero-size reduction for `max`/`min`, or a failed `np.stack`);
* `nanScalar` — the reduction returned the scalar `nan` (this is what
                `np.mean([], axis=0)` does: a `RuntimeWarning`, not an error);
* `series s`  — the reduction returned the 1-D array `s`. -/
inductive NpResult where
  | raised
  | nanScalar
  | series (s : List ℚ)
deriving DecidableEq, Repr

/-- Number of columns of a table: the length of its first row
(`np.array(data).shape[1]` when the table is rectangular and non-empty). -/
def numCols (data : Table) : ℕ := (data.head?.getD []).length

/-- `np.array(data)` succeeds as a 2-D array exactly when all rows have the
same length; otherwise numpy raises a `ValueError` (inhomogeneous shape). -/
def isRect (data : Table) : Bool :=
  data.all (fun r => r.length = numCols data)

/-- Column `j` of the table: `data[:, j]`, reading missing entries as 0
(irrelevant for rectangular tables when `j < numCols data`). -/
def column (data : Table) (j : ℕ) : List ℚ :=
  data.map (fun r => r.getD j 0)

/-- The column-wise arithmetic mean, the series produced by
`np.mean(data, axis=0)` on a non-empty rectangular table. -/
def meanSeries (data : Table) : List ℚ :=
  (List.range (numCols data)).map (fun j => (column data j).sum / data.length)

/-- Maximum of a list of rationals, the value of a numpy `max` reduction on a
non-empty vector (`0` is a junk value for the empty list, on which numpy
raises instead). -/
def listMax : List ℚ → ℚ
  | [] => 0
  | x :: xs => xs.foldl max x

/-- Minimum of a list of rationals (junk value `0` on the empty list). -/
def listMin : List ℚ → ℚ
  | [] => 0
  | x :: xs => xs.foldl min x

/-- The column-wise maxima, `np.max(data, axis=0)` on a non-empty
rectangular table. -/
def maxSeries (data : Table) : List ℚ :=
  (List.range (numCols data)).map (fun j => listMax (column data j))

/-- The column-wise minima, `np.min(data, axis=0)` on a non-empty
rectangular table. -/
def minSeries (data : Table) : List ℚ :=
  (List.range (numCols data)).map (fun j => listMin (column data j))

/-- `daily_mean(data) = np.mean(data, axis=0)`.
On an inhomogeneous list `np.array` raises; on the empty table (`np.array([])`
has shape `(0,)`) `np.mean(·, axis=0)` warns and returns the scalar `nan`;
otherwise it returns the column-wise means. -/
def daily_mean (data : Table) : NpResult :=
  if isRect data then
    if data.isEmpty then NpResult.nanScalar
    else NpResult.series (meanSeries data)
  else NpResult.raised

/-- `daily_max(data) = np.max(data, axis=0)`.
On an inhomogeneous list `np.array` raises; on the empty table the axis being
reduced has length 0 and `max`, having no identity, raises a `ValueError`
(zero-size reduction); otherwise it returns the column-wise maxima. -/
def daily_max (data : Table) : NpResult :=
  if isRect data then
    if data.isEmpty then NpResult.raised
    else NpResult.series (maxSeries data)
  else NpResult.raised

/-- `daily_min(data) = np.min(data, axis=0)`: as `daily_max`, with minima. -/
def daily_min (data : Table) : NpResult :=
  if isRect data then
    if data.isEmpty then NpResult.raised
    else NpResult.series (minSeries data)
  else NpResult.raised

/-- The per-row maximum used by `patient_normalise`:
`np.nanmax(data, axis=1)` for one row. NaN entries do not arise in the
rational model, so this is the plain row maximum. -/
def rowMax (row : List ℚ) : ℚ := listMax row

/-- One row of `patient_normalise`'s normalisation:
`row / max` followed by `normalised[np.isnan(normalised)] = 0` and
`normalised[normalised < 0] = 0`. In float arithmetic `v / 0` is NaN exactly
when `v = 0` (then substituted by `0`); for `v ≠ 0` it would be `±inf`, which
cannot occur because `max` is the maximum of the row and the whole table has
already been checked to contain no negative value. -/
def normaliseRow (row : List ℚ) : List ℚ :=
  let m := rowMax row
  row.map (fun v =>
    let q := if m = 0 then 0 else v / m
    if q < 0 then 0 else q)

/-- `patient_normalise(data)`:
raises `ValueError` when `np.any(data < 0)`; otherwise divides each row by
its own `np.nanmax`, substituting indeterminate results with 0 and clamping
negative results to 0. -/
def patient_normalise (data : Table) : Except String Table :=
  if data.any (fun row => row.any (fun v => decide (v < 0))) then
    Except.error "Inflammation values should not be negative"
  else
    Except.ok (data.map normaliseRow)

/-- The arithmetic mean of column `j` of a matrix, as numpy computes it
inside `np.std(·, axis=0)`. -/
def colMean (m : List (List ℚ)) (j : ℕ) : ℚ :=
  (column m j).sum / (column m j).length

/-- The population variance of column `j` of a matrix: the mean of the
squared deviations from the column mean. `np.std(·, axis=0)` is its square
root. -/
def colVariance (m : List (List ℚ)) (j : ℕ) : ℚ :=
  ((column m j).map (fun x => (x - colMean m j) ^ 2)).sum / (column m j).length

/-- Outcome of `compute_standard_deviation_by_day`: as `NpResult`, but the
resulting series lives in `ℝ` because `np.std` takes a square root. -/
inductive StdResult where
  | raised
  | nanScalar
  | series (s : List ℝ)

/-- Whether a reduction outcome is a raised `ValueError`. -/
def NpResult.isRaised : NpResult → Bool
  | NpResult.raised => true
  | _ => false

/-- Whether a reduction outcome is the scalar `nan`. -/
def NpResult.isNanScalar : NpResult → Bool
  | NpResult.nanScalar => true
  | _ => false

/-- Extracts the list of series from a list of reduction outcomes, `none` if
any outcome is not a series. -/
def allSeries? : List NpResult → Option (List (List ℚ))
  | [] => some []
  | NpResult.series s :: rest => (allSeries? rest).map (fun l => s :: l)
  | _ => none

/-- `compute_standard_deviation_by_day(data)`:
`means_by_day = map(daily_mean, data)`, forced by `list(...)` (so a
`ValueError` from any `daily_mean` propagates first), then
`np.stack(means_by_day)` (raises on an empty list or mismatched shapes; a
stack of `nan` scalars is a 1-D vector of NaNs whose `np.std(axis=0)` is the
scalar `nan`), then `np.std(matrix, axis=0)`: the column-wise square root of
the population variance. -/
noncomputable def compute_standard_deviation_by_day (data : List Table) : StdResult :=
  let ms := data.map daily_mean
  if ms.any NpResult.isRaised then StdResult.raised
  else
    match allSeries? ms with
    | some mat =>
        if mat.isEmpty then StdResult.raised
        else if mat.all (fun r => r.length = numCols mat) then
          StdResult.series ((List.range (numCols mat)).map
            (fun j => Real.sqrt ((colVariance mat j : ℚ) : ℝ)))
        else StdResult.raised
    | none =>
        if ms.all NpResult.isNanScalar then StdResult.nanScalar
        else StdResult.raised

/-- Modelled from the spec: `standard_deviation_single` is described by the
spec (`standard_deviation_single(table) -> {"standard deviation":
DailySeries}`) but absent from `src/` (only `compute_standard_deviation_by_day`
appears there). Following the spec's words: compute the per-column mean, then
for every row the element-wise squared deviation from that mean, sum these
across rows, divide by the row count, and return the result keyed by the
literal label `"standard deviation"`. -/
def standard_deviation_single (table : Table) : List (String × List ℚ) :=
  let mmean := meanSeries table
  let sqdevs := table.map (fun row => List.zipWith (fun x mu => (x - mu) ^ 2) row mmean)
  let summed := sqdevs.foldl (fun acc r => List.zipWith (· + ·) acc r)
    (List.replicate mmean.length 0)
  [("standard deviation", summed.map (fun s => s / table.length))]

/-! ### Basic lemmas about list maxima, minima and columns -/

theorem le_foldl_max (l : List ℚ) (b : ℚ) : b ≤ l.foldl max b := by
  induction l generalizing b with
  | nil => simp
  | cons x xs ih =>
      rw [List.foldl_cons]
      exact le_trans (le_max_left b x) (ih (max b x))

theorem mem_le_foldl_max (l : List ℚ) (b a : ℚ) (ha : a ∈ l) : a ≤ l.foldl max b := by
  induction l generalizing b with
  | nil => cases ha
  | cons x xs ih =>
      rw [List.foldl_cons]
      rcases List.mem_cons.mp ha with h | h
      · subst h
        exact le_trans (le_max_right b a) (le_foldl_max xs (max b a))
      · exact ih (max b x) h

theorem foldl_max_mem (l : List ℚ) (b : ℚ) : l.foldl max b ∈ b :: l := by
  induction l generalizing b with
  | nil => simp
  | cons x xs ih =>
      rw [List.foldl_cons]
      rcases List.mem_cons.mp (ih (max b x)) with h | h
      · rw [h]
        rcases max_choice b x with hm | hm <;> rw [hm] <;> simp
      · exact List.mem_cons_of_mem _ (List.mem_cons_of_mem _ h)

theorem le_listMax {l : List ℚ} {a : ℚ} (ha : a ∈ l) : a ≤ listMax l := by
  cases l with
  | nil => cases ha
  | cons x xs =>
      show a ≤ xs.foldl max x
      rcases List.mem_cons.mp ha with h | h
      · subst h
        exact le_foldl_max xs a
      · exact mem_le_foldl_max xs x a h

theorem listMax_mem {l : List ℚ} (h : l ≠ []) : listMax l ∈ l := by
  cases l with
  | nil => exact absurd rfl h
  | cons x xs => exact foldl_max_mem xs x

theorem foldl_min_le (l : List ℚ) (b : ℚ) : l.foldl min b ≤ b := by
  induction l generalizing b with
  | nil => simp
  | cons x xs ih =>
      rw [List.foldl_cons]
      exact le_trans (ih (min b x)) (min_le_left b x)

theorem foldl_min_le_mem (l : List ℚ) (b a : ℚ) (ha : a ∈ l) : l.foldl min b ≤ a := by
  induction l generalizing b with
  | nil => cases ha
  | cons x xs ih =>
      rw [List.foldl_cons]
      rcases List.mem_cons.mp ha with h | h
      · subst h
        exact le_trans (foldl_min_le xs (min b a)) (min_le_right b a)
      · exact ih (min b x) h

theorem foldl_min_mem (l : List ℚ) (b : ℚ) : l.foldl min b ∈ b :: l := by
  induction l generalizing b with
  | nil => simp
  | cons x xs ih =>
      rw [List.foldl_cons]
      rcases List.mem_cons.mp (ih (min b x)) with h | h
      · rw [h]
        rcases min_choice b x with hm | hm <;> rw [hm] <;> simp
      · exact List.mem_cons_of_mem _ (List.mem_cons_of_mem _ h)

theorem listMin_le {l : List ℚ} {a : ℚ} (ha : a ∈ l) : listMin l ≤ a := by
  cases l with
  | nil => cases ha
  | cons x xs =>
      show xs.foldl min x ≤ a
      rcases List.mem_cons.mp ha with h | h
      · subst h
        exact foldl_min_le xs a
      · exact foldl_min_le_mem xs x a h

theorem listMin_mem {l : List ℚ} (h : l ≠ []) : listMin l ∈ l := by
  cases l with
  | nil => exact absurd rfl h
  | cons x xs => exact foldl_min_mem xs x

theorem column_length (d : Table) (j : ℕ) : (column d j).length = d.length := by
  simp [column]

theorem column_ne_nil {d : Table} (h : d ≠ []) (j : ℕ) : column d j ≠ [] := by
  simp [column, h]

theorem getD_range_map (f : ℕ → ℚ) (C j : ℕ) (hj : j < C) :
    ((List.range C).map f).getD j 0 = f j := by
  rw [List.getD_eq_getElem _ _ (by simpa using hj)]
  simp

theorem meanSeries_length (d : Table) : (meanSeries d).length = numCols d := by
  simp [meanSeries]

theorem maxSeries_length (d : Table) : (maxSeries d).length = numCols d := by
  simp [maxSeries]

theorem minSeries_length (d : Table) : (minSeries d).length = numCols d := by
  simp [minSeries]

theorem mean_le_listMax {l : List ℚ} (h : l ≠ []) : l.sum / l.length ≤ listMax l := by
  have hlen : 0 < (l.length : ℚ) := by
    exact_mod_cast List.length_pos.mpr h
  rw [div_le_iff₀ hlen]
  have := List.sum_le_card_nsmul l (listMax l) (fun x hx => le_listMax hx)
  simpa [nsmul_eq_mul, mul_comm] using this

theorem listMin_le_mean {l : List ℚ} (h : l ≠ []) : listMin l ≤ l.sum / l.length := by
  have hlen : 0 < (l.length : ℚ) := by
    exact_mod_cast List.length_pos.mpr h
  rw [le_div_iff₀ hlen]
  have := List.card_nsmul_le_sum l (listMin l) (fun x hx => listMin_le hx)
  simpa [nsmul_eq_mul, mul_comm] using this

/-! ### Permutation lemmas -/

theorem listMax_perm {l l' : List ℚ} (hp : l.Perm l') (h : l ≠ []) :
    listMax l = listMax l' := by
  have h' : l' ≠ [] := by
    intro e
    subst e
    exact h hp.eq_nil
  refine le_antisymm ?_ ?_
  · exact le_listMax (hp.mem_iff.mp (listMax_mem h))
  · exact le_listMax (hp.symm.mem_iff.mp (listMax_mem h'))

theorem listMin_perm {l l' : List ℚ} (hp : l.Perm l') (h : l ≠ []) :
    listMin l = listMin l' := by
  have h' : l' ≠ [] := by
    intro e
    subst e
    exact h hp.eq_nil
  refine le_antisymm ?_ ?_
  · exact listMin_le (hp.symm.mem_iff.mp (listMin_mem h'))
  · exact listMin_le (hp.mem_iff.mp (listMin_mem h))

theorem isRect_forall {d : Table} (h : isRect d = true) :
    ∀ r ∈ d, r.length = numCols d := by
  intro r hr
  have := List.all_eq_true.mp h r hr
  exact_mod_cast of_decide_eq_true this

/-- Under a permutation of the rows of a non-empty rectangular table, the
column count is unchanged. -/
theorem numCols_perm {d d' : Table} (hp : d.Perm d') (hne : d ≠ [])
    (hrect : isRect d = true) : numCols d' = numCols d := by
  have hne' : d' ≠ [] := by
    intro e
    subst e
    exact hne hp.eq_nil
  cases d' with
  | nil => exact absurd rfl hne'
  | cons r rs =>
      have hr : r ∈ d := hp.symm.mem_iff.mp (List.mem_cons_self r rs)
      simpa [numCols] using isRect_forall hrect r hr

theorem isRect_perm {d d' : Table} (hp : d.Perm d') (hne : d ≠ [])
    (hrect : isRect d = true) : isRect d' = true := by
  rw [isRect, List.all_eq_true]
  intro r hr
  have : r ∈ d := hp.symm.mem_iff.mp hr
  rw [numCols_perm hp hne hrect]
  exact decide_eq_true (isRect_forall hrect r this)

/-! ### getD lemmas for zipWith and folds (used for the single-table
standard deviation) -/

theorem zipWith_add_getD (a b : List ℚ) (hb : b.length = a.length) (j : ℕ) :
    (List.zipWith (· + ·) a b).getD j 0 = a.getD j 0 + b.getD j 0 := by
  induction a generalizing b j with
  | nil =>
      cases b with
      | nil => simp
      | cons y ys => simp at hb
  | cons x xs ih =>
      cases b with
      | nil => simp at hb
      | cons y ys =>
          cases j with
          | zero => simp
          | succ j => simpa using ih ys (by simpa using hb) j

theorem zipWith_getD_of_lt (f : ℚ → ℚ → ℚ) (a b : List ℚ) (j : ℕ)
    (hj : j < a.length) (hb : b.length = a.length) :
    (List.zipWith f a b).getD j 0 = f (a.getD j 0) (b.getD j 0) := by
  induction a generalizing b j with
  | nil => simp at hj
  | cons x xs ih =>
      cases b with
      | nil => simp at hb
      | cons y ys =>
          cases j with
          | zero => simp
          | succ j => simpa using ih ys j (by simpa using hj) (by simpa using hb)

theorem foldl_zipWith_add_length (rows : List (List ℚ)) (acc : List ℚ)
    (h : ∀ r ∈ rows, r.length = acc.length) :
    (rows.foldl (fun a r => List.zipWith (· + ·) a r) acc).length = acc.length := by
  induction rows generalizing acc with
  | nil => rfl
  | cons r rs ih =>
      rw [List.foldl_cons]
      have hlen : (List.zipWith (· + ·) acc r).length = acc.length := by
        simp [List.length_zipWith, h r (List.mem_cons_self r rs)]
      rw [ih (List.zipWith (· + ·) acc r)
        (fun r' hr' => by rw [hlen]; exact h r' (List.mem_cons_of_mem _ hr')), hlen]

theorem foldl_zipWith_add_getD (rows : List (List ℚ)) (acc : List ℚ)
    (h : ∀ r ∈ rows, r.length = acc.length) (j : ℕ) :
    (rows.foldl (fun a r => List.zipWith (· + ·) a r) acc).getD j 0
      = acc.getD j 0 + (rows.map (fun r => r.getD j 0)).sum := by
  induction rows generalizing acc with
  | nil => simp
  | cons r rs ih =>
      rw [List.foldl_cons]
      have hlen : (List.zipWith (· + ·) acc r).length = acc.length := by
        simp [List.length_zipWith, h r (List.mem_cons_self r rs)]
      rw [ih (List.zipWith (· + ·) acc r)
        (fun r' hr' => by rw [hlen]; exact h r' (List.mem_cons_of_mem _ hr'))]
      rw [zipWith_add_getD acc r (h r (List.mem_cons_self r rs)) j]
      simp [add_assoc]

theorem getD_replicate_zero (n j : ℕ) : (List.replicate n (0 : ℚ)).getD j 0 = 0 := by
  induction n generalizing j with
  | zero => simp
  | succ n ih =>
      cases j with
      | zero => simp [List.replicate_succ]
      | succ j => simp [List.replicate_succ, ih j]

/-! ### Helper facts about `patient_normalise` and the daily reductions -/

theorem patient_normalise_ok {d : Table} (h : ∀ r ∈ d, ∀ v ∈ r, 0 ≤ v) :
    patient_normalise d = Except.ok (d.map normaliseRow) := by
  have hguard : (d.any fun row => row.any fun v => decide (v < 0)) = false := by
    rw [List.any_eq_false]
    intro row hrow
    rw [Bool.not_eq_true, List.any_eq_false]
    intro v hv
    simp [not_lt.mpr (h row hrow v hv)]
  simp [patient_normalise, hguard]

theorem daily_mean_eq_series {t : Table} (hne : t ≠ []) (hrect : isRect t = true) :
    daily_mean t = NpResult.series (meanSeries t) := by
  simp [daily_mean, hrect, hne]

theorem daily_max_eq_series {t : Table} (hne : t ≠ []) (hrect : isRect t = true) :
    daily_max t = NpResult.series (maxSeries t) := by
  simp [daily_max, hrect, hne]

theorem daily_min_eq_series {t : Table} (hne : t ≠ []) (hrect : isRect t = true) :
    daily_min t = NpResult.series (minSeries t) := by
  simp [daily_min, hrect, hne]

theorem getD_map_normaliseRow (d : Table) (i : ℕ) :
    (d.map normaliseRow).getD i [] = normaliseRow (d.getD i []) := by
  by_cases hi : i < d.length
  · rw [List.getD_eq_getElem _ _ (by simpa using hi), List.getD_eq_getElem _ _ hi,
      List.getElem_map]
  · rw [List.getD_eq_default _ _ (by simpa using not_lt.mp hi),
      List.getD_eq_default _ _ (not_lt.mp hi)]
    simp [normaliseRow]

theorem foldl_max_zero (n : ℕ) : (List.replicate n (0 : ℚ)).foldl max 0 = 0 := by
  induction n with
  | zero => rfl
  | succ n ih => simp [List.replicate_succ, ih]

theorem rowMax_replicate_zero (k : ℕ) : rowMax (List.replicate k (0 : ℚ)) = 0 := by
  cases k with
  | zero => rfl
  | succ k =>
      show listMax (List.replicate (k + 1) (0 : ℚ)) = 0
      rw [List.replicate_succ]
      show (List.replicate k (0 : ℚ)).foldl max 0 = 0
      exact foldl_max_zero k

theorem normaliseRow_replicate_zero (k : ℕ) :
    normaliseRow (List.replicate k (0 : ℚ)) = List.replicate k 0 := by
  simp [normaliseRow, rowMax_replicate_zero k, List.map_replicate]

/-! ### Claim theorems -/

/-- Claim C2: `patient_normalise` results in the domain `ValueError` exactly
when some value of the input table is negative (the check runs over the whole
table before any normalisation, and in that case no normalised table is
produced); in particular `[[1,-1]]` raises. -/
theorem patient_normalise_error_iff_neg (d : Table) :
    ((∃ r ∈ d, ∃ v ∈ r, v < 0) ↔
      patient_normalise d = Except.error "Inflammation values should not be negative") ∧
    patient_normalise [[1,-1]] = Except.error "Inflammation values should not be negative" := by
  constructor
  · constructor
    · intro hex
      have hg : (d.any fun row => row.any fun v => decide (v < 0)) = true := by
        rw [List.any_eq_true]
        obtain ⟨r, hr, v, hv, hneg⟩ := hex
        exact ⟨r, hr, List.any_eq_true.mpr ⟨v, hv, decide_eq_true hneg⟩⟩
      simp [patient_normalise, hg]
    · intro herr
      by_contra hnex
      push_neg at hnex
      have := patient_normalise_ok (fun r hr v hv => hnex r hr v hv)
      rw [this] at herr
      exact Except.noConfusion herr
  · norm_num [patient_normalise]

/-- Claim C3: on a table with no negative value, `patient_normalise` succeeds
and every value of the resulting table lies in `[0, 1]`. -/
theorem patient_normalise_range (d : Table) (h : ∀ r ∈ d, ∀ v ∈ r, 0 ≤ v) :
    ∃ out, patient_normalise d = Except.ok out ∧
      ∀ r ∈ out, ∀ v ∈ r, 0 ≤ v ∧ v ≤ 1 := by
  refine ⟨d.map normaliseRow, patient_normalise_ok h, ?_⟩
  intro r' hr' v hv
  rcases List.mem_map.mp hr' with ⟨r, hr, rfl⟩
  simp only [normaliseRow] at hv
  rcases List.mem_map.mp hv with ⟨w, hw, rfl⟩
  have hw0 : 0 ≤ w := h r hr w hw
  have hwm : w ≤ rowMax r := le_listMax hw
  by_cases hm : rowMax r = 0
  · simp [hm]
  · have hmpos : 0 < rowMax r := lt_of_le_of_ne (le_trans hw0 hwm) (Ne.symm hm)
    have hq0 : 0 ≤ w / rowMax r := div_nonneg hw0 (le_of_lt hmpos)
    have hq1 : w / rowMax r ≤ 1 := (div_le_one hmpos).mpr hwm
    simp [hm, not_lt.mpr hq0, hq0, hq1]

/-- Claim C8: if `patient_normalise` succeeds and row `i` of the input is all
zeros, then row `i` of the output is all zeros: the indeterminate `0 / 0`
values are substituted by `0` locally, not raised. -/
theorem patient_normalise_zero_row (d out : Table) (i k : ℕ)
    (h : patient_normalise d = Except.ok out)
    (hrow : d.getD i [] = List.replicate k 0) :
    out.getD i [] = List.replicate k 0 := by
  have hout : out = d.map normaliseRow := by
    by_cases hg : (d.any fun row => row.any fun v => decide (v < 0)) = true
    · simp [patient_normalise, hg] at h
    · rw [patient_normalise, if_neg (by simpa using hg)] at h
      exact (Except.ok.inj h).symm
  rw [hout, getD_map_normaliseRow, hrow, normaliseRow_replicate_zero]

/-- Claim C4: on a non-empty rectangular table `daily_mean`, `daily_max` and
`daily_min` return series of length `numCols T` whose entry at each day `j`
is the arithmetic mean, the maximum and the minimum of column `j`
respectively; on `[[1,2],[3,4]]` they return `[2,3]`, `[3,4]` and `[1,2]`. -/
theorem daily_stats_columnwise (T : Table) (hne : T ≠ []) (hrect : isRect T = true) :
    (daily_mean T = NpResult.series (meanSeries T) ∧
      (meanSeries T).length = numCols T ∧
      ∀ j, j < numCols T → (meanSeries T).getD j 0 = (column T j).sum / T.length) ∧
    (daily_max T = NpResult.series (maxSeries T) ∧
      (maxSeries T).length = numCols T ∧
      ∀ j, j < numCols T → (maxSeries T).getD j 0 ∈ column T j ∧
        ∀ v ∈ column T j, v ≤ (maxSeries T).getD j 0) ∧
    (daily_min T = NpResult.series (minSeries T) ∧
      (minSeries T).length = numCols T ∧
      ∀ j, j < numCols T → (minSeries T).getD j 0 ∈ column T j ∧
        ∀ v ∈ column T j, (minSeries T).getD j 0 ≤ v) ∧
    daily_mean [[1,2],[3,4]] = NpResult.series [2,3] ∧
    daily_max [[1,2],[3,4]] = NpResult.series [3,4] ∧
    daily_min [[1,2],[3,4]] = NpResult.series [1,2] := by
  refine ⟨⟨daily_mean_eq_series hne hrect, meanSeries_length T, ?_⟩,
    ⟨daily_max_eq_series hne hrect, maxSeries_length T, ?_⟩,
    ⟨daily_min_eq_series hne hrect, minSeries_length T, ?_⟩, ?_, ?_, ?_⟩
  · intro j hj
    rw [meanSeries, getD_range_map _ _ _ hj]
  · intro j hj
    rw [maxSeries, getD_range_map _ _ _ hj]
    exact ⟨listMax_mem (column_ne_nil hne j), fun v hv => le_listMax hv⟩
  · intro j hj
    rw [minSeries, getD_range_map _ _ _ hj]
    exact ⟨listMin_mem (column_ne_nil hne j), fun v hv => listMin_le hv⟩
  · norm_num [daily_mean, isRect, numCols, meanSeries, column, List.range_succ]
  · norm_num [daily_max, isRect, numCols, maxSeries, column, listMax, List.range_succ]
  · norm_num [daily_min, isRect, numCols, minSeries, column, listMin, List.range_succ]

/-- Claim C5: on a non-empty rectangular table the three daily series
satisfy `daily_min ≤ daily_mean ≤ daily_max` at every day `j`. -/
theorem daily_min_le_mean_le_max (T : Table) (hne : T ≠ []) (hrect : isRect T = true)
    (j : ℕ) (hj : j < numCols T) :
    daily_min T = NpResult.series (minSeries T) ∧
    daily_mean T = NpResult.series (meanSeries T) ∧
    daily_max T = NpResult.series (maxSeries T) ∧
    (minSeries T).getD j 0 ≤ (meanSeries T).getD j 0 ∧
    (meanSeries T).getD j 0 ≤ (maxSeries T).getD j 0 := by
  refine ⟨daily_min_eq_series hne hrect, daily_mean_eq_series hne hrect,
    daily_max_eq_series hne hrect, ?_, ?_⟩
  · rw [minSeries, meanSeries, getD_range_map _ _ _ hj, getD_range_map _ _ _ hj,
      ← column_length T j]
    exact listMin_le_mean (column_ne_nil hne j)
  · rw [maxSeries, meanSeries, getD_range_map _ _ _ hj, getD_range_map _ _ _ hj,
      ← column_length T j]
    exact mean_le_listMax (column_ne_nil hne j)

/-- Claim C9: the three daily reductions are invariant under any permutation
of the rows of a non-empty rectangular table. -/
theorem daily_stats_row_perm (T T' : Table) (hp : T.Perm T') (hne : T ≠ [])
    (hrect : isRect T = true) :
    daily_mean T' = daily_mean T ∧ daily_max T' = daily_max T ∧
    daily_min T' = daily_min T := by
  have hne' : T' ≠ [] := fun e => hne (by subst e; exact hp.eq_nil)
  have hrect' := isRect_perm hp hne hrect
  have hC := numCols_perm hp hne hrect
  have hlen := hp.length_eq
  have hcol : ∀ j, (column T j).Perm (column T' j) := fun j => hp.map _
  have hmean : meanSeries T' = meanSeries T := by
    rw [meanSeries, meanSeries, hC]
    refine congrArg (fun f => List.map f (List.range (numCols T))) (funext fun j => ?_)
    rw [← (hcol j).sum_eq, ← hlen]
  have hmax : maxSeries T' = maxSeries T := by
    rw [maxSeries, maxSeries, hC]
    refine congrArg (fun f => List.map f (List.range (numCols T))) (funext fun j => ?_)
    exact (listMax_perm (hcol j) (column_ne_nil hne j)).symm
  have hmin : minSeries T' = minSeries T := by
    rw [minSeries, minSeries, hC]
    refine congrArg (fun f => List.map f (List.range (numCols T))) (funext fun j => ?_)
    exact (listMin_perm (hcol j) (column_ne_nil hne j)).symm
  exact ⟨by rw [daily_mean_eq_series hne' hrect', daily_mean_eq_series hne hrect, hmean],
    by rw [daily_max_eq_series hne' hrect', daily_max_eq_series hne hrect, hmax],
    by rw [daily_min_eq_series hne' hrect', daily_min_eq_series hne hrect, hmin]⟩

/-- Claim C10 counterexample: on the empty table `daily_mean` does not raise:
`np.mean([], axis=0)` returns the scalar `nan` (with a `RuntimeWarning`),
while the claim says all three reductions fail there. -/
theorem daily_mean_empty_no_raise :
    daily_mean ([] : Table) = NpResult.nanScalar ∧
    NpResult.nanScalar ≠ NpResult.raised := by
  exact ⟨rfl, by decide⟩

/-- Claim C10 (amended): `daily_max` and `daily_min` raise on an empty or
ragged table; `daily_mean` raises on a ragged table but on the empty table
returns the scalar `nan` instead of raising. -/
theorem daily_reductions_bad_shape (d : Table)
    (h : isRect d = false ∨ d = []) :
    daily_max d = NpResult.raised ∧ daily_min d = NpResult.raised ∧
    daily_mean d = (if d.isEmpty then NpResult.nanScalar else NpResult.raised) := by
  rcases h with h | h
  · have hne : d.isEmpty = false := by
      cases d with
      | nil => simp [isRect] at h
      | cons x xs => rfl
    simp [daily_max, daily_min, daily_mean, h, hne]
  · subst h
    refine ⟨rfl, rfl, rfl⟩

/-! ### The cross-dataset standard deviation -/

theorem allSeries?_map_series (l : List (List ℚ)) :
    allSeries? (l.map NpResult.series) = some l := by
  induction l with
  | nil => rfl
  | cons x xs ih => simp [allSeries?, ih]

theorem any_isRaised_map_series (l : List (List ℚ)) :
    (l.map NpResult.series).any NpResult.isRaised = false := by
  induction l with
  | nil => rfl
  | cons x xs ih => simp [List.any_cons, NpResult.isRaised, ih]

/-- On a non-empty collection of non-empty rectangular tables with a common
column count `C`, `compute_standard_deviation_by_day` returns the series of
square roots of the column variances of the stacked daily means. -/
theorem compute_std_eq_series (data : List Table) (C : ℕ) (hne : data ≠ [])
    (hall : ∀ t ∈ data, t ≠ [] ∧ isRect t = true ∧ numCols t = C) :
    compute_standard_deviation_by_day data =
      StdResult.series ((List.range C).map
        (fun j => Real.sqrt ((colVariance (data.map meanSeries) j : ℚ) : ℝ))) := by
  have hmap : data.map daily_mean = (data.map meanSeries).map NpResult.series := by
    rw [List.map_map]
    exact List.map_congr_left (fun t ht =>
      daily_mean_eq_series (hall t ht).1 (hall t ht).2.1)
  have hmatne : data.map meanSeries ≠ [] := by
    intro e
    exact hne (List.map_eq_nil_iff.mp e)
  have hCmat : numCols (data.map meanSeries) = C := by
    cases data with
    | nil => exact absurd rfl hne
    | cons t ts =>
        show numCols (meanSeries t :: ts.map meanSeries) = C
        show (meanSeries t).length = C
        rw [meanSeries_length]
        exact (hall t (List.mem_cons_self t ts)).2.2
  have hmat_len : ((data.map meanSeries).all
      (fun r => decide (r.length = C))) = true := by
    rw [List.all_eq_true]
    intro r hr
    rcases List.mem_map.mp hr with ⟨t, ht, rfl⟩
    rw [meanSeries_length]
    exact decide_eq_true (hall t ht).2.2
  have hempty : (data.map meanSeries).isEmpty = false := by
    cases data with
    | nil => exact absurd rfl hne
    | cons t ts => rfl
  simp only [compute_standard_deviation_by_day, hmap, any_isRaised_map_series,
    allSeries?_map_series, Bool.false_eq_true, if_false, hempty, hmat_len, if_true,
    hCmat]

/-- Claim C1: `compute_standard_deviation_by_day` computes `daily_mean` for
each table, stacks the resulting series, and returns the column-wise
population standard deviation in true square-root form; on the two
one-row datasets `[[1,2]]` and `[[3,4]]` the result is `[1.0, 1.0]`. -/
theorem std_by_day_is_sqrt_of_stacked_means (data : List Table) (C : ℕ)
    (hne : data ≠ []) (hall : ∀ t ∈ data, t ≠ [] ∧ isRect t = true ∧ numCols t = C) :
    (∀ t ∈ data, daily_mean t = NpResult.series (meanSeries t)) ∧
    compute_standard_deviation_by_day data =
      StdResult.series ((List.range C).map
        (fun j => Real.sqrt ((colVariance (data.map meanSeries) j : ℚ) : ℝ))) ∧
    compute_standard_deviation_by_day [[[1,2]], [[3,4]]] =
      StdResult.series [1, 1] := by
  refine ⟨fun t ht => daily_mean_eq_series (hall t ht).1 (hall t ht).2.1,
    compute_std_eq_series data C hne hall, ?_⟩
  rw [compute_std_eq_series [[[1,2]], [[3,4]]] 2 (by decide) (by decide)]
  have hmap : ([[[1,2]], [[3,4]]] : List Table).map meanSeries = [[1,2],[3,4]] := by
    norm_num [meanSeries, numCols, column, List.range_succ]
  rw [hmap]
  have hcv0 : colVariance [[1,2],[3,4]] 0 = 1 := by
    norm_num [colVariance, colMean, column]
  have hcv1 : colVariance [[1,2],[3,4]] 1 = 1 := by
    norm_num [colVariance, colMean, column]
  simp [List.range_succ, hcv0, hcv1]

theorem colMean_replicate (N : ℕ) (hN : N ≠ 0) (m : List ℚ) (j : ℕ) :
    colMean (List.replicate N m) j = m.getD j 0 := by
  simp only [colMean, column, List.map_replicate, List.sum_replicate, nsmul_eq_mul,
    List.length_replicate]
  exact mul_div_cancel_left₀ _ (Nat.cast_ne_zero.mpr hN)

theorem colVariance_replicate (N : ℕ) (hN : N ≠ 0) (m : List ℚ) (j : ℕ) :
    colVariance (List.replicate N m) j = 0 := by
  simp [colVariance, colMean_replicate N hN m j, column, List.map_replicate,
    List.sum_replicate, sub_self]

/-- Claim C6: on `N ≥ 1` copies of one and the same non-empty rectangular
table, `compute_standard_deviation_by_day` returns the all-zero series. -/
theorem std_by_day_identical_tables (N : ℕ) (t : Table) (hN : 1 ≤ N)
    (hne : t ≠ []) (hrect : isRect t = true) :
    compute_standard_deviation_by_day (List.replicate N t) =
      StdResult.series (List.replicate (numCols t) (0 : ℝ)) := by
  have hN0 : N ≠ 0 := Nat.one_le_iff_ne_zero.mp hN
  have hne' : List.replicate N t ≠ [] := by
    intro e
    exact hN0 (by simpa using congrArg List.length e)
  have hall : ∀ u ∈ List.replicate N t, u ≠ [] ∧ isRect u = true ∧ numCols u = numCols t := by
    intro u hu
    rw [List.eq_of_mem_replicate hu]
    exact ⟨hne, hrect, rfl⟩
  rw [compute_std_eq_series (List.replicate N t) (numCols t) hne' hall]
  congr 1
  rw [List.map_replicate]
  apply List.eq_replicate_iff.mpr
  refine ⟨by simp, ?_⟩
  intro b hb
  rcases List.mem_map.mp hb with ⟨j, hj, rfl⟩
  rw [colVariance_replicate N hN0]
  simp

/-- Claim C7 (modelled from the spec): `standard_deviation_single` on a
rectangular table returns, under the literal label `"standard deviation"`,
the per-column population variance — not its square root. -/
theorem standard_deviation_single_is_variance (t : Table) (hrect : isRect t = true) :
    standard_deviation_single t =
      [("standard deviation",
        (List.range (numCols t)).map (fun j => colVariance t j))] := by
  have hrows := isRect_forall hrect
  have hml : (meanSeries t).length = numCols t := meanSeries_length t
  have hsq : ∀ r ∈ t.map (fun row => List.zipWith (fun x mu => (x - mu) ^ 2) row (meanSeries t)),
      r.length = (List.replicate (meanSeries t).length (0 : ℚ)).length := by
    intro r hr
    rcases List.mem_map.mp hr with ⟨row, hrow, rfl⟩
    simp [List.length_zipWith, hrows row hrow, hml]
  have hsummedlen :
      ((t.map (fun row => List.zipWith (fun x mu => (x - mu) ^ 2) row (meanSeries t))).foldl
        (fun a r => List.zipWith (· + ·) a r) (List.replicate (meanSeries t).length 0)).length
        = numCols t := by
    rw [foldl_zipWith_add_length _ _ hsq]
    simp [hml]
  simp only [standard_deviation_single, List.cons.injEq, Prod.mk.injEq, true_and, and_true]
  apply List.ext_getElem
  · simp [hsummedlen]
  · intro i h1 h2
    have hiC : i < numCols t := by simpa using h2
    have hmm : (meanSeries t).getD i 0 = colMean t i := by
      rw [meanSeries, getD_range_map _ _ _ hiC, colMean, column_length]
    rw [List.getElem_map, List.getElem_map, List.getElem_range,
      ← List.getD_eq_getElem _ 0 (by simpa [hsummedlen] using hiC),
      foldl_zipWith_add_getD _ _ hsq i, getD_replicate_zero, zero_add, List.map_map]
    have hcongr : t.map ((fun r => r.getD i 0) ∘
        (fun row => List.zipWith (fun x mu => (x - mu) ^ 2) row (meanSeries t)))
        = t.map (fun row => (row.getD i 0 - colMean t i) ^ 2) := by
      apply List.map_congr_left
      intro row hrow
      show (List.zipWith (fun x mu => (x - mu) ^ 2) row (meanSeries t)).getD i 0
        = (row.getD i 0 - colMean t i) ^ 2
      rw [zipWith_getD_of_lt _ _ _ i (by rw [hrows row hrow]; exact hiC)
        (by rw [hml, hrows row hrow]), hmm]
    rw [hcongr, colVariance, column_length, column, List.map_map]
    rfl

/-! ### Witnesses: each hypothesis-bearing claim theorem applied at a
concrete input -/

/-- Witness for claim C1 at the collection `[[[1,2]], [[3,4]]]`. -/
theorem std_by_day_is_sqrt_of_stacked_means_witness :
    (∀ t ∈ ([[[1,2]], [[3,4]]] : List Table),
      daily_mean t = NpResult.series (meanSeries t)) ∧
    compute_standard_deviation_by_day [[[1,2]], [[3,4]]] =
      StdResult.series ((List.range 2).map
        (fun j => Real.sqrt
          ((colVariance (([[[1,2]], [[3,4]]] : List Table).map meanSeries) j : ℚ) : ℝ))) ∧
    compute_standard_deviation_by_day [[[1,2]], [[3,4]]] = StdResult.series [1, 1] :=
  std_by_day_is_sqrt_of_stacked_means [[[1,2]], [[3,4]]] 2 (by decide) (by decide)

/-- Witness for claim C3 at the table `[[0,0],[1,2]]`. -/
theorem patient_normalise_range_witness :
    ∃ out, patient_normalise [[0,0],[1,2]] = Except.ok out ∧
      ∀ r ∈ out, ∀ v ∈ r, 0 ≤ v ∧ v ≤ 1 :=
  patient_normalise_range [[0,0],[1,2]] (by decide)

/-- Witness for claim C4 at the table `[[1,2],[3,4]]`. -/
theorem daily_stats_columnwise_witness :
    (daily_mean [[1,2],[3,4]] = NpResult.series (meanSeries [[1,2],[3,4]]) ∧
      (meanSeries [[1,2],[3,4]]).length = numCols [[1,2],[3,4]] ∧
      ∀ j, j < numCols [[1,2],[3,4]] →
        (meanSeries [[1,2],[3,4]]).getD j 0 =
          (column [[1,2],[3,4]] j).sum / ([[1,2],[3,4]] : Table).length) ∧
    (daily_max [[1,2],[3,4]] = NpResult.series (maxSeries [[1,2],[3,4]]) ∧
      (maxSeries [[1,2],[3,4]]).length = numCols [[1,2],[3,4]] ∧
      ∀ j, j < numCols [[1,2],[3,4]] →
        (maxSeries [[1,2],[3,4]]).getD j 0 ∈ column [[1,2],[3,4]] j ∧
        ∀ v ∈ column [[1,2],[3,4]] j, v ≤ (maxSeries [[1,2],[3,4]]).getD j 0) ∧
    (daily_min [[1,2],[3,4]] = NpResult.series (minSeries [[1,2],[3,4]]) ∧
      (minSeries [[1,2],[3,4]]).length = numCols [[1,2],[3,4]] ∧
      ∀ j, j < numCols [[1,2],[3,4]] →
        (minSeries [[1,2],[3,4]]).getD j 0 ∈ column [[1,2],[3,4]] j ∧
        ∀ v ∈ column [[1,2],[3,4]] j, (minSeries [[1,2],[3,4]]).getD j 0 ≤ v) ∧
    daily_mean [[1,2],[3,4]] = NpResult.series [2,3] ∧
    daily_max [[1,2],[3,4]] = NpResult.series [3,4] ∧
    daily_min [[1,2],[3,4]] = NpResult.series [1,2] :=
  daily_stats_columnwise [[1,2],[3,4]] (by decide) (by decide)

/-- Witness for claim C5 at the table `[[1,2],[3,4]]`, day 0. -/
theorem daily_min_le_mean_le_max_witness :
    daily_min [[1,2],[3,4]] = NpResult.series (minSeries [[1,2],[3,4]]) ∧
    daily_mean [[1,2],[3,4]] = NpResult.series (meanSeries [[1,2],[3,4]]) ∧
    daily_max [[1,2],[3,4]] = NpResult.series (maxSeries [[1,2],[3,4]]) ∧
    (minSeries [[1,2],[3,4]]).getD 0 0 ≤ (meanSeries [[1,2],[3,4]]).getD 0 0 ∧
    (meanSeries [[1,2],[3,4]]).getD 0 0 ≤ (maxSeries [[1,2],[3,4]]).getD 0 0 :=
  daily_min_le_mean_le_max [[1,2],[3,4]] (by decide) (by decide) 0 (by decide)

/-- Witness for claim C6 at two copies of the table `[[1,2],[3,4]]`. -/
theorem std_by_day_identical_tables_witness :
    compute_standard_deviation_by_day (List.replicate 2 [[1,2],[3,4]]) =
      StdResult.series (List.replicate (numCols [[1,2],[3,4]]) (0 : ℝ)) :=
  std_by_day_identical_tables 2 [[1,2],[3,4]] (by decide) (by decide) (by decide)

/-- Witness for claim C7 at the table `[[1,2],[3,4]]`. -/
theorem standard_deviation_single_is_variance_witness :
    standard_deviation_single [[1,2],[3,4]] =
      [("standard deviation",
        (List.range (numCols [[1,2],[3,4]])).map
          (fun j => colVariance [[1,2],[3,4]] j))] :=
  standard_deviation_single_is_variance [[1,2],[3,4]] (by decide)

/-- Witness for claim C8 at the table `[[0,0]]`, whose row 0 is all zeros. -/
theorem patient_normalise_zero_row_witness :
    ([[0,0]] : Table).getD 0 [] = List.replicate 2 0 :=
  patient_normalise_zero_row [[0,0]] [[0,0]] 0 2
    (by norm_num [patient_normalise, normaliseRow, rowMax, listMax]) (by decide)

/-- Witness for claim C9: `[[3,4],[1,2]]` is a row permutation of
`[[1,2],[3,4]]`. -/
theorem daily_stats_row_perm_witness :
    daily_mean [[3,4],[1,2]] = daily_mean [[1,2],[3,4]] ∧
    daily_max [[3,4],[1,2]] = daily_max [[1,2],[3,4]] ∧
    daily_min [[3,4],[1,2]] = daily_min [[1,2],[3,4]] :=
  daily_stats_row_perm [[1,2],[3,4]] [[3,4],[1,2]]
    (List.Perm.swap ([3,4] : List ℚ) [1,2] []) (by decide) (by decide)

/-- Witness for claim C10 (amended) at a ragged table and at the empty
table. -/
theorem daily_reductions_bad_shape_witness :
    (daily_max [[1],[2,3]] = NpResult.raised ∧
      daily_min [[1],[2,3]] = NpResult.raised ∧
      daily_mean [[1],[2,3]] =
        (if ([[1],[2,3]] : Table).isEmpty then NpResult.nanScalar else NpResult.raised)) ∧
    (daily_max ([] : Table) = NpResult.raised ∧
      daily_min ([] : Table) = NpResult.raised ∧
      daily_mean ([] : Table) =
        (if ([] : Table).isEmpty then NpResult.nanScalar else NpResult.raised)) :=
  ⟨daily_reductions_bad_shape [[1],[2,3]] (Or.inl (by decide)),
   daily_reductions_bad_shape [] (Or.inr rfl)⟩

end Inflammation
